import Mathlib

/-!
# Verification of the Branch MCP server credential / query / error core

Shallow embedding of the shared core of the `branch-mcp-server` repository:
the credential resolver (`src/utils/auth.ts`), the query-parameter builder
(`src/utils/apiQueryParameters.ts`), the error taxonomy
(`src/utils/errors.ts`, `src/utils/api.ts`, and the inline catch handlers of
the tool files such as `src/apis/quick-links.ts`), and the log redactor
(`src/utils/logger.ts`).

Optional string fields of the TypeScript interfaces are embedded as
`Option String`: `none` models `undefined` (or `null`), `some s` models a
present string (possibly empty). JavaScript nullish coalescing `a ?? b`
and string truthiness are embedded explicitly.
-/

namespace BranchMcp

/-- JavaScript nullish coalescing `a ?? b` on optional strings: the left
value wins whenever it is present (not `undefined`/`null`), even when it is
the empty string. -/
def nullish (a b : Option String) : Option String :=
  match a with
  | some v => some v
  | none => b

/-- JavaScript truthiness of an optional string used in `if (x)` tests:
`undefined` and the empty string are falsy, every other string is truthy. -/
def jsTruthy : Option String → Bool
  | none => false
  | some s => s ≠ ""

/-- The `BranchMcpConfig` interface from `src/config.ts`: the process-wide
service configuration, all fields optional strings. -/
structure BranchMcpConfig where
  branch_key : Option String := none
  branch_url : Option String := none
  branch_secret : Option String := none
  api_key : Option String := none
  app_id : Option String := none
  organization_id : Option String := none
  auth_token : Option String := none
deriving Repr, DecidableEq

/-- The `AuthParams` interface from `src/utils/auth.ts`: the caller-supplied
credential parameters of a tool invocation. -/
structure AuthParams where
  api_key : Option String := none
  branch_key : Option String := none
  branch_secret : Option String := none
  app_id : Option String := none
  organization_id : Option String := none
  auth_token : Option String := none
deriving Repr, DecidableEq

/-- The result shape of `getResolvedAuth` (the object literal returned at
`src/utils/auth.ts` lines 41-48). -/
structure ResolvedAuth where
  api_key : Option String
  branch_key : Option String
  branch_secret : Option String
  app_id : Option String
  organization_id : Option String
  auth_token : Option String
deriving Repr, DecidableEq

/-- `getResolvedAuth` from `src/utils/auth.ts`: merges tool-input credentials
with the server configuration.  `resolvedApiKey` follows the synonym chain
`params.api_key ?? params.auth_token ?? config.api_key ?? config.auth_token`
and is written to both the `api_key` and the `auth_token` slot; the other
fields use plain `params ?? config` precedence. -/
def getResolvedAuth (params : AuthParams) (config : BranchMcpConfig) : ResolvedAuth :=
  let resolvedApiKey :=
    nullish params.api_key (nullish params.auth_token
      (nullish config.api_key config.auth_token))
  let resolvedAppId := nullish params.app_id config.app_id
  let resolvedOrgId := nullish params.organization_id config.organization_id
  { api_key := resolvedApiKey
    branch_key := nullish params.branch_key config.branch_key
    branch_secret := nullish params.branch_secret config.branch_secret
    app_id := resolvedAppId
    organization_id := resolvedOrgId
    auth_token := resolvedApiKey }

/-- The input shape of `getApiQueryParams`
(`src/utils/apiQueryParameters.ts`): an object with optional `app_id` and
`organization_id`. -/
structure QueryInput where
  app_id : Option String := none
  organization_id : Option String := none
deriving Repr, DecidableEq

/-- The query-parameter record built by `getApiQueryParams`.  The source
builds a `Record<string, string>` that can only ever contain the keys
`app_id` and `organization_id`; a `none` field models the key being absent
from the record. -/
structure ApiQueryParams where
  app_id : Option String := none
  organization_id : Option String := none
deriving Repr, DecidableEq

/-- `getApiQueryParams` from `src/utils/apiQueryParameters.ts`.  Each
`if (x)` test of the source is a JavaScript truthiness test, embedded with
`jsTruthy`; the function first tries to populate `app_id` from params then
config, returns immediately when the populated record has a truthy
`app_id`, and only otherwise tries `organization_id` from params then
config. -/
def getApiQueryParams (params : QueryInput) (config : BranchMcpConfig) : ApiQueryParams :=
  let queryParams : ApiQueryParams := {}
  let queryParams :=
    if jsTruthy params.app_id then { queryParams with app_id := params.app_id }
    else if jsTruthy config.app_id then { queryParams with app_id := config.app_id }
    else queryParams
  if jsTruthy queryParams.app_id then queryParams
  else
    if jsTruthy params.organization_id then
      { queryParams with organization_id := params.organization_id }
    else if jsTruthy config.organization_id then
      { queryParams with organization_id := config.organization_id }
    else queryParams

/-!
## Error taxonomy (`src/utils/errors.ts`, `src/utils/api.ts`, inline catch handlers)

Thrown JavaScript values are embedded as a `JsValue` type covering the
shapes the classification code distinguishes: strings, numbers, booleans,
`null`, `undefined`, arrays, plain objects, `Error` instances (with their
`message` string and any extra own properties), and axios errors
(`Error` instances for which `axios.isAxiosError` holds, carrying an
optional response).  A response is embedded as a triple
`(status, statusText, data)`. -/

inductive JsValue where
  | str (s : String)
  | num (n : Int)
  | boolean (b : Bool)
  | nullV
  | undefinedV
  | arr (elems : List JsValue)
  | obj (fields : List (String × JsValue))
  | errorInst (message : String) (fields : List (String × JsValue))
  | axiosError (message : String) (response : Option (Nat × String × JsValue))

/-- First-match lookup of an own property in an embedded object's field
list (JavaScript objects cannot carry duplicate keys; a faithful embedding
never uses one twice, and lookup takes the first). -/
def lookupField : List (String × JsValue) → String → Option JsValue
  | [], _ => none
  | (k, v) :: rest, key => if k == key then some v else lookupField rest key

/-- The `error instanceof Error` test of `getErrorMessage`
(`src/utils/errors.ts`): `Error` instances and axios errors (a subclass)
pass and expose their `message`. -/
def errorInstanceMessage : JsValue → Option String
  | .errorInst m _ => some m
  | .axiosError m _ => some m
  | _ => none

/-- The value accepted by the `isErrorWithMessage` type guard
(`src/utils/errors.ts`): a non-null value of object type whose `message`
property exists and is a string; returns that string.  `Error` instances
qualify through their `message` property; arrays have object type but no
`message` property. -/
def objectMessage : JsValue → Option String
  | .obj fields =>
    match lookupField fields "message" with
    | some (.str m) => some m
    | _ => none
  | .errorInst m _ => some m
  | .axiosError m _ => some m
  | _ => none

/-- `isErrorWithMessage` from `src/utils/errors.ts`. -/
def isErrorWithMessage (error : JsValue) : Bool :=
  (objectMessage error).isSome

/-- `getErrorMessage` from `src/utils/errors.ts`: `Error` instances and
objects with a string `message` yield that message, plain strings are
returned verbatim, and every other value yields the fixed fallback string. -/
def getErrorMessage (error : JsValue) : String :=
  match errorInstanceMessage error with
  | some m => m
  | none =>
    match objectMessage error with
    | some m => m
    | none =>
      match error with
      | .str s => s
      | _ => "Unknown error occurred"

/-- The `BranchApiError` shape from `src/utils/errors.ts`: a message, an
optional numeric status, and an optional raw response snapshot. -/
structure BranchApiError where
  message : String
  status : Option Nat := none
  response : Option (Nat × String × JsValue) := none

/-- `handleApiError` from `src/utils/api.ts`, embedded as the
`BranchApiError` it always throws: an axios error with a response is
wrapped with the HTTP status-line message, the status, and the response;
everything else is wrapped with the extracted message and no status. -/
def handleApiError (error : JsValue) : BranchApiError :=
  match error with
  | .axiosError _ (some r) =>
    { message := "Branch API error: " ++ toString r.1 ++ " " ++ r.2.1
      status := some r.1
      response := some r }
  | _ => { message := "Branch API error: " ++ getErrorMessage error }

/-- JavaScript property access `v.key` with `undefined` for misses, as used
by the optional chain `error.response?.data?.error?.message`. -/
def jsGetProp (v : JsValue) (key : String) : JsValue :=
  match v with
  | .obj fields => (lookupField fields key).getD .undefinedV
  | .errorInst m fields =>
    if key == "message" then .str m else (lookupField fields key).getD .undefinedV
  | .axiosError m _ => if key == "message" then .str m else .undefinedV
  | _ => .undefinedV

/-- JavaScript truthiness of an arbitrary value: `undefined`, `null`,
`false`, `0` and `""` are falsy; objects, arrays and errors are truthy. -/
def jsTruthyValue : JsValue → Bool
  | .str s => s ≠ ""
  | .num n => n ≠ 0
  | .boolean b => b
  | .nullV => false
  | .undefinedV => false
  | _ => true

/-- JavaScript string coercion, used when a truthy nested message value is
assigned to the (string-typed) error message.  The claims only exercise the
string case; the other cases follow the usual JavaScript conversions
(arrays approximated by the empty-array conversion). -/
def jsToString : JsValue → String
  | .str s => s
  | .num n => toString n
  | .boolean b => if b then "true" else "false"
  | .nullV => "null"
  | .undefinedV => "undefined"
  | .arr _ => ""
  | .obj _ => "[object Object]"
  | .errorInst m _ => "Error: " ++ m
  | .axiosError m _ => "Error: " ++ m

/-- The optional chain `error.response?.data?.error?.message` from the
inline catch handlers (`src/apis/quick-links.ts` and the QR-code tool):
`undefined` unless the error is an axios error with a response. -/
def nestedResponseErrorMessage (error : JsValue) : JsValue :=
  match error with
  | .axiosError _ (some r) => jsGetProp (jsGetProp r.2.2 "error") "message"
  | _ => .undefinedV

/-- The shared inline catch handler of the tool files
(`src/apis/quick-links.ts` lines 62-72 and the QR-code tool), embedded as
the `BranchApiError` it always throws: the message is `getErrorMessage` of
the error, overridden by a truthy `error.response?.data?.error?.message`
when the error is an axios error; an axios error is thrown with
`status: error.response?.status ?? 0` and the response, anything else with
`status: 0`. -/
def toolCatchNormalize (error : JsValue) : BranchApiError :=
  let message := getErrorMessage error
  let nested := nestedResponseErrorMessage error
  let message := if jsTruthyValue nested then jsToString nested else message
  match error with
  | .axiosError _ response =>
    { message := message
      status := some ((response.map fun r => r.1).getD 0)
      response := response }
  | _ => { message := message, status := some 0 }

/-- The axios response carried by a thrown value, when it is an axios error
that has one (`axios.isAxiosError(error) && error.response`). -/
def axiosResponseOf : JsValue → Option (Nat × String × JsValue)
  | .axiosError _ r => r
  | _ => none

/-!
## Log redactor (`src/utils/logger.ts`)

Structured log payloads are plain JSON-like data; they are embedded as the
tree type `LogValue`.  `sanitizeLogObject` mirrors the source: non-object
values are returned unchanged, arrays are mapped element-wise, and objects
are rebuilt with sensitive keys mapped to the placeholder and other values
sanitized recursively. -/

/-- `SENSITIVE_KEYS` from `src/utils/logger.ts`. -/
def SENSITIVE_KEYS : List String :=
  ["branch_secret", "branch_key", "api_key", "auth_token", "app_id", "organization_id"]

/-- `REDACTED_PLACEHOLDER` from `src/utils/logger.ts`. -/
def REDACTED_PLACEHOLDER : String := "[REDACTED]"

/-- A plain structured value as passed to the logger. -/
inductive LogValue where
  | str (s : String)
  | num (n : Int)
  | boolean (b : Bool)
  | nullV
  | undefinedV
  | arr (elems : List LogValue)
  | obj (fields : List (String × LogValue))

mutual

/-- `sanitizeLogObject` from `src/utils/logger.ts`: values that are not of
object type (and `null`) are returned as-is, arrays are mapped, and objects
are rebuilt key by key, replacing the value under every sensitive key by the
placeholder and recursing into every other value. -/
def sanitizeLogObject : LogValue → LogValue
  | .arr elems => .arr (sanitizeLogList elems)
  | .obj fields => .obj (sanitizeLogFields fields)
  | v => v

/-- Element-wise sanitization of an array (the `obj.map(sanitizeLogObject)`
of the source). -/
def sanitizeLogList : List LogValue → List LogValue
  | [] => []
  | v :: rest => sanitizeLogObject v :: sanitizeLogList rest

/-- The `for...in` loop of the source over an object's own enumerable
properties: a sensitive key's value becomes the placeholder, any other value
is sanitized recursively. -/
def sanitizeLogFields : List (String × LogValue) → List (String × LogValue)
  | [] => []
  | (k, v) :: rest =>
    if k ∈ SENSITIVE_KEYS then
      (k, .str REDACTED_PLACEHOLDER) :: sanitizeLogFields rest
    else
      (k, sanitizeLogObject v) :: sanitizeLogFields rest

end

/-- First-match lookup in an embedded object's field list. -/
def lookupLogField : List (String × LogValue) → String → Option LogValue
  | [], _ => none
  | (k, v) :: rest, key => if k == key then some v else lookupLogField rest key

mutual

/-- `true` when no key from `SENSITIVE_KEYS` occurs anywhere in the value. -/
def noSensitive : LogValue → Bool
  | .arr elems => noSensitiveList elems
  | .obj fields => noSensitiveFields fields
  | _ => true

/-- `noSensitive` over every element of a list. -/
def noSensitiveList : List LogValue → Bool
  | [] => true
  | v :: rest => noSensitive v && noSensitiveList rest

/-- `noSensitive` over an object's fields: no key is sensitive and no value
contains a sensitive key. -/
def noSensitiveFields : List (String × LogValue) → Bool
  | [] => true
  | (k, v) :: rest =>
    if k ∈ SENSITIVE_KEYS then false else noSensitive v && noSensitiveFields rest

end

/-- One step of a path into a structured value: either an object field
access or an array index. -/
inductive PathStep where
  | fieldStep (k : String)
  | indexStep (i : Nat)

/-- Follow one path step into a value (`none` when the step does not apply). -/
def stepInto (v : LogValue) : PathStep → Option LogValue
  | .fieldStep k =>
    match v with
    | .obj fields => lookupLogField fields k
    | _ => none
  | .indexStep i =>
    match v with
    | .arr elems => elems[i]?
    | _ => none

/-- Follow a path into a structured value. -/
def getPath : LogValue → List PathStep → Option LogValue
  | v, [] => some v
  | v, s :: p =>
    match stepInto v s with
    | some w => getPath w p
    | none => none

/-- A path is clean when it traverses no sensitive field name. -/
def cleanPath (p : List PathStep) : Bool :=
  p.all fun s =>
    match s with
    | .fieldStep k => decide (k ∉ SENSITIVE_KEYS)
    | .indexStep _ => true

/-!
## Heap semantics of the redactor (mutation observability)

To make mutation (or its absence) observable, `sanitizeLogObject` is also
embedded with an explicit store: objects and arrays live in heap cells
addressed by natural numbers, and the function threads the store,
allocating a fresh cell for every object or array it rebuilds.  The source
only ever reads its input (`obj[key]`) and writes into freshly created
objects (`newObj[key] = ...`, `map`), so the embedding's only store
operation is allocation at the end of the store.  A `fuel` argument bounds
the recursion depth (the source would not terminate on cyclic heaps; on
acyclic heaps any fuel larger than the depth is enough). -/

/-- A heap value: a primitive or a reference to a heap cell. -/
inductive HVal where
  | prim (v : LogValue)
  | ref (a : Nat)

/-- A heap cell: an array of values or an object mapping keys to values. -/
inductive HCell where
  | arrC (elems : List HVal)
  | objC (fields : List (String × HVal))

/-- The heap: a list of cells, addressed by position. -/
abbrev Store := List HCell

/-- Allocate a fresh cell at the end of the store, returning its address. -/
def allocCell (s : Store) (c : HCell) : Store × Nat :=
  (s ++ [c], s.length)

mutual

/-- Store-passing `sanitizeLogObject`: primitives are returned unchanged,
a reference is dereferenced and its cell rebuilt into a freshly allocated
cell (element-wise for arrays; key by key for objects, redacting sensitive
keys).  The input store is only ever extended, never written to. -/
def sanitizeH : Nat → Store → HVal → Store × HVal
  | 0, s, v => (s, v)
  | _ + 1, s, .prim v => (s, .prim v)
  | fuel + 1, s, .ref a =>
    match s[a]? with
    | none => (s, .ref a)
    | some (.arrC elems) =>
      let (s1, elems1) := sanitizeHList fuel s elems
      let (s2, a1) := allocCell s1 (.arrC elems1)
      (s2, .ref a1)
    | some (.objC fields) =>
      let (s1, fields1) := sanitizeHFields fuel s fields
      let (s2, a1) := allocCell s1 (.objC fields1)
      (s2, .ref a1)

/-- Store-passing sanitization of the elements of an array cell. -/
def sanitizeHList : Nat → Store → List HVal → Store × List HVal
  | _, s, [] => (s, [])
  | fuel, s, v :: rest =>
    let (s1, v1) := sanitizeH fuel s v
    let (s2, rest1) := sanitizeHList fuel s1 rest
    (s2, v1 :: rest1)

/-- Store-passing sanitization of the fields of an object cell. -/
def sanitizeHFields : Nat → Store → List (String × HVal) → Store × List (String × HVal)
  | _, s, [] => (s, [])
  | fuel, s, (k, v) :: rest =>
    if k ∈ SENSITIVE_KEYS then
      let (s1, rest1) := sanitizeHFields fuel s rest
      (s1, (k, .prim (.str REDACTED_PLACEHOLDER)) :: rest1)
    else
      let (s1, v1) := sanitizeH fuel s v
      let (s2, rest1) := sanitizeHFields fuel s1 rest
      (s2, (k, v1) :: rest1)

end

/-!
## Theorems
-/

/-- `undefined` is falsy. -/
@[simp] theorem jsTruthy_none : jsTruthy none = false := rfl

/-- `nullish` keeps a present left value, whatever the right is. -/
theorem nullish_of_isSome {a : Option String} (b : Option String)
    (h : a.isSome = true) : nullish a b = a := by
  cases a with
  | none => simp at h
  | some v => rfl

/-- The two-sided characterization of nullish coalescing: a present left
value is kept, an absent one falls back to the right value. -/
theorem nullish_cases (a b : Option String) :
    (a.isSome = true → nullish a b = a) ∧ (a = none → nullish a b = b) := by
  cases a with
  | none => exact ⟨fun h => by simp at h, fun _ => rfl⟩
  | some v => exact ⟨fun _ => rfl, fun h => by cases h⟩

/-- `nullish` falls back to the right value when the left is absent. -/
theorem nullish_none (b : Option String) : nullish none b = b := rfl

/-- The synonym chain equals the first present value among the four
candidates in order. -/
theorem nullish_chain_eq_firstPresent (a b c d : Option String) :
    nullish a (nullish b (nullish c d)) = ([a, b, c, d].filterMap id).head? := by
  cases a <;> cases b <;> cases c <;> cases d <;> rfl

/-- C1 counterexample: with caller `auth_token = "T"` and config
`api_key = "K"`, the caller's `api_key` is absent and the config's is
present, so the claimed per-field precedence demands `api_key = "K"` in the
output; the code's synonym chain instead yields `api_key = "T"`. -/
theorem getResolvedAuth_per_field_fails :
    ({ auth_token := some "T" } : AuthParams).api_key = none ∧
    ({ api_key := some "K" } : BranchMcpConfig).api_key = some "K" ∧
    (getResolvedAuth { auth_token := some "T" } { api_key := some "K" }).api_key = some "T" ∧
    (some "T" : Option String) ≠ some "K" := by
  refine ⟨rfl, rfl, rfl, by decide⟩

/-- C1 amended: caller-over-config per-field precedence holds for
`branch_key`, `branch_secret`, `app_id` and `organization_id` (caller value
when present, else config value, else absent); the `api_key` and
`auth_token` slots instead both carry the first present value of the
synonym chain `params.api_key`, `params.auth_token`, `config.api_key`,
`config.auth_token`. -/
theorem getResolvedAuth_precedence (P : AuthParams) (C : BranchMcpConfig) :
    ((P.branch_key.isSome = true → (getResolvedAuth P C).branch_key = P.branch_key) ∧
      (P.branch_key = none → (getResolvedAuth P C).branch_key = C.branch_key)) ∧
    ((P.branch_secret.isSome = true → (getResolvedAuth P C).branch_secret = P.branch_secret) ∧
      (P.branch_secret = none → (getResolvedAuth P C).branch_secret = C.branch_secret)) ∧
    ((P.app_id.isSome = true → (getResolvedAuth P C).app_id = P.app_id) ∧
      (P.app_id = none → (getResolvedAuth P C).app_id = C.app_id)) ∧
    ((P.organization_id.isSome = true →
        (getResolvedAuth P C).organization_id = P.organization_id) ∧
      (P.organization_id = none →
        (getResolvedAuth P C).organization_id = C.organization_id)) ∧
    (getResolvedAuth P C).api_key =
      ([P.api_key, P.auth_token, C.api_key, C.auth_token].filterMap id).head? ∧
    (getResolvedAuth P C).auth_token =
      ([P.api_key, P.auth_token, C.api_key, C.auth_token].filterMap id).head? :=
  ⟨nullish_cases P.branch_key C.branch_key,
    nullish_cases P.branch_secret C.branch_secret,
    nullish_cases P.app_id C.app_id,
    nullish_cases P.organization_id C.organization_id,
    nullish_chain_eq_firstPresent P.api_key P.auth_token C.api_key C.auth_token,
    nullish_chain_eq_firstPresent P.api_key P.auth_token C.api_key C.auth_token⟩

/-- C1 amended, witness: caller `branch_key` wins; absent caller
`branch_key` falls back to the config value. -/
theorem getResolvedAuth_precedence_witness :
    (getResolvedAuth { branch_key := some "pk" } { branch_key := some "ck" }).branch_key
      = some "pk" := by
  exact (getResolvedAuth_precedence { branch_key := some "pk" }
    { branch_key := some "ck" }).1.1 (by decide)

/-- C2: both token slots of `getResolvedAuth` carry the first present value
among `params.api_key`, `params.auth_token`, `config.api_key`,
`config.auth_token`, in that order (absent when none is present); in
particular params `auth_token = "T"` with an empty config resolve both
slots to `"T"`. -/
theorem getResolvedAuth_synonym_chain (P : AuthParams) (C : BranchMcpConfig) :
    (getResolvedAuth P C).api_key =
      ([P.api_key, P.auth_token, C.api_key, C.auth_token].filterMap id).head? ∧
    (getResolvedAuth P C).auth_token =
      ([P.api_key, P.auth_token, C.api_key, C.auth_token].filterMap id).head? ∧
    (getResolvedAuth { auth_token := some "T" } {}).api_key = some "T" ∧
    (getResolvedAuth { auth_token := some "T" } {}).auth_token = some "T" := by
  refine ⟨nullish_chain_eq_firstPresent _ _ _ _, nullish_chain_eq_firstPresent _ _ _ _, rfl, rfl⟩

/-- C8: the `api_key` slot and the `auth_token` slot of the resolved
credentials always hold the identical value. -/
theorem getResolvedAuth_token_slots_equal (P : AuthParams) (C : BranchMcpConfig) :
    (getResolvedAuth P C).api_key = (getResolvedAuth P C).auth_token := rfl

/-- Case analysis of `getApiQueryParams` by the four truthiness tests of
the source (shared helper). -/
theorem getApiQueryParams_cases (P : QueryInput) (C : BranchMcpConfig) :
    (jsTruthy P.app_id = true →
      getApiQueryParams P C = { app_id := P.app_id, organization_id := none }) ∧
    (jsTruthy P.app_id = false → jsTruthy C.app_id = true →
      getApiQueryParams P C = { app_id := C.app_id, organization_id := none }) ∧
    (jsTruthy P.app_id = false → jsTruthy C.app_id = false →
      jsTruthy P.organization_id = true →
      getApiQueryParams P C = { app_id := none, organization_id := P.organization_id }) ∧
    (jsTruthy P.app_id = false → jsTruthy C.app_id = false →
      jsTruthy P.organization_id = false → jsTruthy C.organization_id = true →
      getApiQueryParams P C = { app_id := none, organization_id := C.organization_id }) ∧
    (jsTruthy P.app_id = false → jsTruthy C.app_id = false →
      jsTruthy P.organization_id = false → jsTruthy C.organization_id = false →
      getApiQueryParams P C = { app_id := none, organization_id := none }) := by
  refine ⟨fun h1 => ?_, fun h1 h2 => ?_, fun h1 h2 h3 => ?_,
    fun h1 h2 h3 h4 => ?_, fun h1 h2 h3 h4 => ?_⟩ <;>
    simp [getApiQueryParams, h1, *]

/-- C3: whenever an application identifier is resolvable (a truthy
`app_id` in params, else in config — the source's `if (x)` tests), the
result contains exactly that `app_id` and never an `organization_id`, even
when organization identifiers were also supplied; when no application
identifier is resolvable the result carries the first truthy
`organization_id` of params then config; when neither is resolvable the
result is the empty record. -/
theorem getApiQueryParams_spec (P : QueryInput) (C : BranchMcpConfig) :
    (jsTruthy P.app_id = true →
      getApiQueryParams P C = { app_id := P.app_id, organization_id := none }) ∧
    (jsTruthy P.app_id = false → jsTruthy C.app_id = true →
      getApiQueryParams P C = { app_id := C.app_id, organization_id := none }) ∧
    (jsTruthy P.app_id = false → jsTruthy C.app_id = false →
      jsTruthy P.organization_id = true →
      getApiQueryParams P C = { app_id := none, organization_id := P.organization_id }) ∧
    (jsTruthy P.app_id = false → jsTruthy C.app_id = false →
      jsTruthy P.organization_id = false → jsTruthy C.organization_id = true →
      getApiQueryParams P C = { app_id := none, organization_id := C.organization_id }) ∧
    (jsTruthy P.app_id = false → jsTruthy C.app_id = false →
      jsTruthy P.organization_id = false → jsTruthy C.organization_id = false →
      getApiQueryParams P C = { app_id := none, organization_id := none }) := by
  exact getApiQueryParams_cases P C

/-- C3 witness: params supply only an organization identifier, config
supplies an application identifier; the result is exactly the config's
`app_id` with no `organization_id`. -/
theorem getApiQueryParams_spec_witness :
    getApiQueryParams { organization_id := some "params_org_id" }
        { app_id := some "config_app_id" } =
      { app_id := some "config_app_id", organization_id := none } := by
  exact (getApiQueryParams_spec { organization_id := some "params_org_id" }
    { app_id := some "config_app_id" }).2.1 (by decide) (by decide)

/-- C10: the scope builder and the credential resolver disagree on a
caller-supplied empty string: the builder's truthiness test treats `""` as
absent and falls back to the config value, while the resolver's nullish
coalescing treats `""` as present and keeps it — for `app_id`, and likewise
for `organization_id` when no application identifier is resolvable. -/
theorem empty_string_asymmetry :
    (∀ (P : AuthParams) (C : BranchMcpConfig) (s : String), s ≠ "" →
      P.app_id = some "" → C.app_id = some s →
      getApiQueryParams { app_id := P.app_id, organization_id := P.organization_id } C =
        { app_id := some s, organization_id := none } ∧
      (getResolvedAuth P C).app_id = some "") ∧
    (∀ (P : AuthParams) (C : BranchMcpConfig) (t : String), t ≠ "" →
      P.organization_id = some "" → C.organization_id = some t →
      jsTruthy P.app_id = false → jsTruthy C.app_id = false →
      getApiQueryParams { app_id := P.app_id, organization_id := P.organization_id } C =
        { app_id := none, organization_id := some t } ∧
      (getResolvedAuth P C).organization_id = some "") := by
  constructor
  · intro P C s hs hP hC
    constructor
    · have h1 : jsTruthy P.app_id = false := by simp [jsTruthy, hP]
      have h2 : jsTruthy C.app_id = true := by simp [jsTruthy, hC, hs]
      simpa [hC] using
        (getApiQueryParams_cases
          { app_id := P.app_id, organization_id := P.organization_id } C).2.1 h1 h2
    · show nullish P.app_id C.app_id = some ""
      rw [hP]
      rfl
  · intro P C t ht hP hC h1 h2
    constructor
    · have h3 : jsTruthy P.organization_id = false := by simp [jsTruthy, hP]
      have h4 : jsTruthy C.organization_id = true := by simp [jsTruthy, hC, ht]
      simpa [hC] using
        (getApiQueryParams_cases
          { app_id := P.app_id, organization_id := P.organization_id } C).2.2.2.1 h1 h2 h3 h4
    · show nullish P.organization_id C.organization_id = some ""
      rw [hP]
      rfl

/-- C10 witness: caller `app_id = ""` with config `app_id = "cfg"` — the
scope builder returns the config value while the resolver keeps the empty
string. -/
theorem empty_string_asymmetry_witness :
    getApiQueryParams { app_id := some "" } { app_id := some "cfg" } =
      { app_id := some "cfg", organization_id := none } ∧
    (getResolvedAuth { app_id := some "" } { app_id := some "cfg" }).app_id = some "" := by
  exact empty_string_asymmetry.1 { app_id := some "" } { app_id := some "cfg" } "cfg"
    (by decide) rfl rfl

/-- C6: `getErrorMessage` is a total function returning the `message` of an
`Error` instance (axios errors included) or of an object carrying a string
`message` property, a plain string verbatim, and the fixed fallback string
`"Unknown error occurred"` for every other value (numbers, booleans,
`null`, `undefined`, arrays, objects without a string `message`). -/
theorem getErrorMessage_spec :
    (∀ (m : String) (fields : List (String × JsValue)),
      getErrorMessage (.errorInst m fields) = m) ∧
    (∀ (m : String) (r : Option (Nat × String × JsValue)),
      getErrorMessage (.axiosError m r) = m) ∧
    (∀ s : String, getErrorMessage (.str s) = s) ∧
    (∀ (fields : List (String × JsValue)) (m : String),
      lookupField fields "message" = some (.str m) →
      getErrorMessage (.obj fields) = m) ∧
    (∀ fields : List (String × JsValue),
      (∀ m : String, lookupField fields "message" ≠ some (.str m)) →
      getErrorMessage (.obj fields) = "Unknown error occurred") ∧
    (∀ n : Int, getErrorMessage (.num n) = "Unknown error occurred") ∧
    (∀ b : Bool, getErrorMessage (.boolean b) = "Unknown error occurred") ∧
    getErrorMessage .nullV = "Unknown error occurred" ∧
    getErrorMessage .undefinedV = "Unknown error occurred" ∧
    (∀ elems : List JsValue, getErrorMessage (.arr elems) = "Unknown error occurred") := by
  refine ⟨fun m fields => rfl, fun m r => rfl, fun s => rfl,
    fun fields m h => ?_, fun fields h => ?_,
    fun n => rfl, fun b => rfl, rfl, rfl, fun elems => rfl⟩
  · simp [getErrorMessage, errorInstanceMessage, objectMessage, h]
  · simp only [getErrorMessage, errorInstanceMessage, objectMessage]

/-- C6 witness: an object carrying the string message `"x"` yields `"x"`;
an object without any `message` property yields the fallback string. -/
theorem getErrorMessage_spec_witness :
    getErrorMessage (.obj [("message", .str "x")]) = "x" ∧
    getErrorMessage (.obj [("some", .str "object")]) = "Unknown error occurred" := by
  refine ⟨getErrorMessage_spec.2.2.2.1 [("message", .str "x")] "x" rfl,
    getErrorMessage_spec.2.2.2.2.1 [("some", .str "object")] fun m h => ?_⟩
  simp [lookupField] at h

/-- C4 counterexample: a 404 response whose body carries the nested
machine-readable message `"App not found"` is normalized by
`handleApiError` (`src/utils/api.ts`) to the generic status-line message,
not to the nested value. -/
theorem handleApiError_ignores_nested_message :
    nestedResponseErrorMessage
      (.axiosError "Request failed with status code 404"
        (some (404, "Not Found",
          .obj [("error", .obj [("message", .str "App not found")])]))) =
      .str "App not found" ∧
    (handleApiError
      (.axiosError "Request failed with status code 404"
        (some (404, "Not Found",
          .obj [("error", .obj [("message", .str "App not found")])])))).message =
      "Branch API error: 404 Not Found" ∧
    ("Branch API error: 404 Not Found" : String) ≠ "App not found" := by
  refine ⟨rfl, by decide, by decide⟩

/-- C4 amended: the inline tool catch handlers (quick-links, QR code)
prefer a truthy nested `error.message` from the response body over the
extracted message, while `handleApiError` always produces the generic
HTTP status-line message even when such a nested message exists. -/
theorem nested_message_preference (em stTxt msg : String) (st : Nat) (data : JsValue)
    (hmsg : jsGetProp (jsGetProp data "error") "message" = .str msg) (hne : msg ≠ "") :
    (toolCatchNormalize (.axiosError em (some (st, stTxt, data)))).message = msg ∧
    (handleApiError (.axiosError em (some (st, stTxt, data)))).message =
      "Branch API error: " ++ toString st ++ " " ++ stTxt := by
  constructor
  · simp [toolCatchNormalize, nestedResponseErrorMessage, hmsg, jsTruthyValue, hne, jsToString]
  · rfl

/-- C4 amended, witness: the quick-links catch handler surfaces the nested
`"App not found"` message of a 404 body. -/
theorem nested_message_preference_witness :
    (toolCatchNormalize
      (.axiosError "Request failed with status code 404"
        (some (404, "Not Found",
          .obj [("error", .obj [("message", .str "App not found")])])))).message =
      "App not found" := by
  exact (nested_message_preference "Request failed with status code 404" "Not Found"
    "App not found" 404
    (.obj [("error", .obj [("message", .str "App not found")])]) rfl (by decide)).1

/-- C5 counterexample: a network failure without a response (an axios error
whose `response` is `undefined`), normalized by the quick-links catch
handler, carries `status = 0` — a present status — while its response is
absent, contradicting "status is absent if the failure produced no
response". -/
theorem toolCatch_status_present_without_response :
    (toolCatchNormalize (.axiosError "Network Error" none)).response = none ∧
    (toolCatchNormalize (.axiosError "Network Error" none)).status = some 0 ∧
    (some 0 : Option Nat) ≠ none := by
  refine ⟨rfl, rfl, by decide⟩

/-- C5 amended: for `handleApiError` the status discriminates as claimed —
it equals the status of the axios response when the server responded and is
absent otherwise (caller errors and network failures without response);
the inline tool catch handlers instead always set a status, with `0`
standing in when no server response exists. -/
theorem status_discriminator (e : JsValue) :
    (handleApiError e).status = ((axiosResponseOf e).map fun r => r.1) ∧
    (toolCatchNormalize e).status =
      some (((axiosResponseOf e).map fun r => r.1).getD 0) := by
  cases e with
  | axiosError m r => cases r <;> exact ⟨rfl, rfl⟩
  | _ => exact ⟨rfl, rfl⟩

/-- Sanitizing an array is mapping the sanitizer over its elements. -/
theorem sanitizeLogList_eq_map (xs : List LogValue) :
    sanitizeLogList xs = xs.map sanitizeLogObject := by
  induction xs with
  | nil => rfl
  | cons v rest ih => simp [sanitizeLogList, ih]

/-- Lookup of a sensitive key in sanitized fields: present exactly when it
was present, and then the placeholder. -/
theorem lookup_sanitizeFields_sensitive (fs : List (String × LogValue)) (k : String)
    (hk : k ∈ SENSITIVE_KEYS) :
    lookupLogField (sanitizeLogFields fs) k =
      (lookupLogField fs k).map fun _ => .str REDACTED_PLACEHOLDER := by
  induction fs with
  | nil => rfl
  | cons kv rest ih =>
    obtain ⟨k1, v1⟩ := kv
    by_cases hkk : k1 = k
    · subst hkk
      simp [sanitizeLogFields, lookupLogField, hk]
    · have hbeq : (k1 == k) = false := by simp [hkk]
      by_cases h1 : k1 ∈ SENSITIVE_KEYS <;>
        simp [sanitizeLogFields, lookupLogField, h1, hbeq, ih]

/-- Lookup of a non-sensitive key in sanitized fields: the sanitized
original value. -/
theorem lookup_sanitizeFields_clean (fs : List (String × LogValue)) (k : String)
    (hk : k ∉ SENSITIVE_KEYS) :
    lookupLogField (sanitizeLogFields fs) k =
      (lookupLogField fs k).map sanitizeLogObject := by
  induction fs with
  | nil => rfl
  | cons kv rest ih =>
    obtain ⟨k1, v1⟩ := kv
    by_cases hkk : k1 = k
    · subst hkk
      simp [sanitizeLogFields, lookupLogField, hk]
    · have hbeq : (k1 == k) = false := by simp [hkk]
      by_cases h1 : k1 ∈ SENSITIVE_KEYS <;>
        simp [sanitizeLogFields, lookupLogField, h1, hbeq, ih]

/-- Path following distributes over path concatenation. -/
theorem getPath_append (p q : List PathStep) (v : LogValue) :
    getPath v (p ++ q) = (getPath v p).bind fun w => getPath w q := by
  induction p generalizing v with
  | nil => simp [getPath]
  | cons s p ih =>
    simp only [List.cons_append, getPath]
    cases stepInto v s with
    | none => simp
    | some w => simp [ih]

/-- One clean (non-sensitive) path step commutes with sanitization. -/
theorem stepInto_sanitize (v : LogValue) (s : PathStep)
    (hs : (match s with
      | .fieldStep k => decide (k ∉ SENSITIVE_KEYS)
      | .indexStep _ => true) = true) :
    stepInto (sanitizeLogObject v) s = (stepInto v s).map sanitizeLogObject := by
  cases s with
  | fieldStep k =>
    rw [decide_eq_true_eq] at hs
    cases v <;>
      simp [stepInto, sanitizeLogObject, lookup_sanitizeFields_clean _ _ hs]
  | indexStep i =>
    cases v <;> simp [stepInto, sanitizeLogObject, sanitizeLogList_eq_map, List.getElem?_map]

/-- Path following along a clean path commutes with sanitization. -/
theorem getPath_sanitize_clean (p : List PathStep) (v : LogValue)
    (hp : cleanPath p = true) :
    getPath (sanitizeLogObject v) p = (getPath v p).map sanitizeLogObject := by
  induction p generalizing v with
  | nil => simp [getPath]
  | cons s p ih =>
    rw [cleanPath, List.all_cons, Bool.and_eq_true] at hp
    simp only [getPath, stepInto_sanitize v s hp.1]
    cases stepInto v s with
    | none => simp
    | some w => simp [ih w hp.2]

mutual

/-- A value containing no sensitive key anywhere is returned structurally
identical by the redactor. -/
theorem sanitize_id_of_noSensitive :
    ∀ v : LogValue, noSensitive v = true → sanitizeLogObject v = v
  | .str _, _ => rfl
  | .num _, _ => rfl
  | .boolean _, _ => rfl
  | .nullV, _ => rfl
  | .undefinedV, _ => rfl
  | .arr elems, h => by
    rw [show sanitizeLogObject (.arr elems) = .arr (sanitizeLogList elems) from rfl,
      sanitizeList_id_of_noSensitive elems (by simpa [noSensitive] using h)]
  | .obj fields, h => by
    rw [show sanitizeLogObject (.obj fields) = .obj (sanitizeLogFields fields) from rfl,
      sanitizeFields_id_of_noSensitive fields (by simpa [noSensitive] using h)]

/-- List version of `sanitize_id_of_noSensitive`. -/
theorem sanitizeList_id_of_noSensitive :
    ∀ xs : List LogValue, noSensitiveList xs = true → sanitizeLogList xs = xs
  | [], _ => rfl
  | v :: rest, h => by
    rw [noSensitiveList, Bool.and_eq_true] at h
    rw [sanitizeLogList, sanitize_id_of_noSensitive v h.1,
      sanitizeList_id_of_noSensitive rest h.2]

/-- Fields version of `sanitize_id_of_noSensitive`. -/
theorem sanitizeFields_id_of_noSensitive :
    ∀ fs : List (String × LogValue), noSensitiveFields fs = true →
      sanitizeLogFields fs = fs
  | [], _ => rfl
  | (k, v) :: rest, h => by
    rw [noSensitiveFields] at h
    by_cases hk : k ∈ SENSITIVE_KEYS
    · rw [if_pos hk] at h
      cases h
    · rw [if_neg hk, Bool.and_eq_true] at h
      rw [sanitizeLogFields, if_neg hk, sanitize_id_of_noSensitive v h.1,
        sanitizeFields_id_of_noSensitive rest h.2]

end

/-- C7: redaction correctness of `sanitizeLogObject` — (1) every value
sitting under a sensitive key, at any nesting depth reachable without
crossing another sensitive key (a deeper occurrence is subsumed by the
redaction of the outer one), is the fixed placeholder in the output,
including inside array elements; (2) every other position of the same
input survives: a value reached by a path crossing no sensitive key is
present at that same path of the output, sanitized recursively, and
(3) when that value contains no sensitive key itself it is structurally
identical to the input value there — so non-sensitive siblings of redacted
keys are untouched; (4) globally, a value containing no sensitive key
anywhere is returned structurally identical. -/
theorem sanitizeLogObject_redacts :
    (∀ (v : LogValue) (p : List PathStep) (k : String) (w : LogValue),
      k ∈ SENSITIVE_KEYS → cleanPath p = true →
      getPath v (p ++ [.fieldStep k]) = some w →
      getPath (sanitizeLogObject v) (p ++ [.fieldStep k]) =
        some (.str REDACTED_PLACEHOLDER)) ∧
    (∀ (v : LogValue) (p : List PathStep) (w : LogValue),
      cleanPath p = true → getPath v p = some w →
      getPath (sanitizeLogObject v) p = some (sanitizeLogObject w)) ∧
    (∀ (v : LogValue) (p : List PathStep) (w : LogValue),
      cleanPath p = true → getPath v p = some w → noSensitive w = true →
      getPath (sanitizeLogObject v) p = some w) ∧
    (∀ v : LogValue, noSensitive v = true → sanitizeLogObject v = v) := by
  refine ⟨fun v p k w hk hp hw => ?_,
    fun v p w hp hw => by rw [getPath_sanitize_clean p v hp, hw]; rfl,
    fun v p w hp hw hns => by
      rw [getPath_sanitize_clean p v hp, hw]
      show some (sanitizeLogObject w) = some w
      rw [sanitize_id_of_noSensitive w hns],
    sanitize_id_of_noSensitive⟩
  rw [getPath_append] at hw
  rcases hu : getPath v p with _ | u
  · rw [hu] at hw
    cases hw
  · rw [hu] at hw
    have hw2 : getPath u [PathStep.fieldStep k] = some w := hw
    rw [getPath_append, getPath_sanitize_clean p v hp, hu]
    show getPath (sanitizeLogObject u) [PathStep.fieldStep k] =
      some (.str REDACTED_PLACEHOLDER)
    clear hw
    cases u with
    | obj fields =>
      rcases hl0 : lookupLogField fields k with _ | x
      · simp [getPath, stepInto, hl0] at hw2
      · rw [show sanitizeLogObject (.obj fields) = .obj (sanitizeLogFields fields)
          from rfl]
        simp [getPath, stepInto, lookup_sanitizeFields_sensitive fields k hk, hl0]
    | str s => simp [getPath, stepInto] at hw2
    | num n => simp [getPath, stepInto] at hw2
    | boolean b => simp [getPath, stepInto] at hw2
    | nullV => simp [getPath, stepInto] at hw2
    | undefinedV => simp [getPath, stepInto] at hw2
    | arr elems => simp [getPath, stepInto] at hw2

/-- Unfolding of `sanitizeH` on a dangling reference. -/
theorem sanitizeH_ref_of_none (fuel : Nat) (s : Store) (adr : Nat)
    (hc : s[adr]? = none) : sanitizeH (fuel + 1) s (.ref adr) = (s, .ref adr) := by
  simp [sanitizeH, hc]

/-- Unfolding of `sanitizeH` on a reference to an array cell: the elements
are sanitized and a fresh array cell is allocated at the end of the store. -/
theorem sanitizeH_ref_arr (fuel : Nat) (s : Store) (adr : Nat) (elems : List HVal)
    (hc : s[adr]? = some (.arrC elems)) :
    sanitizeH (fuel + 1) s (.ref adr) =
      ((sanitizeHList fuel s elems).1 ++ [.arrC (sanitizeHList fuel s elems).2],
        .ref ((sanitizeHList fuel s elems).1).length) := by
  simp [sanitizeH, hc, allocCell]

/-- Unfolding of `sanitizeH` on a reference to an object cell: the fields
are sanitized and a fresh object cell is allocated at the end of the store. -/
theorem sanitizeH_ref_obj (fuel : Nat) (s : Store) (adr : Nat)
    (fields : List (String × HVal)) (hc : s[adr]? = some (.objC fields)) :
    sanitizeH (fuel + 1) s (.ref adr) =
      ((sanitizeHFields fuel s fields).1 ++ [.objC (sanitizeHFields fuel s fields).2],
        .ref ((sanitizeHFields fuel s fields).1).length) := by
  simp [sanitizeH, hc, allocCell]

mutual

/-- The store-passing redactor only extends the store: its length never
shrinks and every pre-existing cell is unchanged. -/
theorem sanitizeH_frame : ∀ (fuel : Nat) (s : Store) (v : HVal),
    s.length ≤ ((sanitizeH fuel s v).1).length ∧
    ∀ a : Nat, a < s.length → ((sanitizeH fuel s v).1)[a]? = s[a]?
  | 0, s, v => by
    refine ⟨?_, fun a ha => ?_⟩ <;> simp [sanitizeH]
  | _ + 1, s, .prim v => by
    refine ⟨?_, fun a ha => ?_⟩ <;> simp [sanitizeH]
  | fuel + 1, s, .ref adr => by
    rcases hc : s[adr]? with _ | c
    · rw [sanitizeH_ref_of_none fuel s adr hc]
      exact ⟨Nat.le_refl _, fun _ _ => rfl⟩
    · cases c with
      | arrC elems =>
        obtain ⟨ih1, ih2⟩ := sanitizeHList_frame fuel s elems
        rw [sanitizeH_ref_arr fuel s adr elems hc]
        refine ⟨by simpa using Nat.le_trans ih1 (Nat.le_succ _), fun a ha => ?_⟩
        rw [List.getElem?_append_left (Nat.lt_of_lt_of_le ha ih1)]
        exact ih2 a ha
      | objC fields =>
        obtain ⟨ih1, ih2⟩ := sanitizeHFields_frame fuel s fields
        rw [sanitizeH_ref_obj fuel s adr fields hc]
        refine ⟨by simpa using Nat.le_trans ih1 (Nat.le_succ _), fun a ha => ?_⟩
        rw [List.getElem?_append_left (Nat.lt_of_lt_of_le ha ih1)]
        exact ih2 a ha

/-- List version of `sanitizeH_frame`. -/
theorem sanitizeHList_frame : ∀ (fuel : Nat) (s : Store) (xs : List HVal),
    s.length ≤ ((sanitizeHList fuel s xs).1).length ∧
    ∀ a : Nat, a < s.length → ((sanitizeHList fuel s xs).1)[a]? = s[a]?
  | fuel, s, [] => by
    refine ⟨?_, fun a ha => ?_⟩ <;> simp [sanitizeHList]
  | fuel, s, v :: rest => by
    obtain ⟨ih1, ih2⟩ := sanitizeH_frame fuel s v
    obtain ⟨jh1, jh2⟩ := sanitizeHList_frame fuel ((sanitizeH fuel s v).1) rest
    have hres : (sanitizeHList fuel s (v :: rest)).1 =
        (sanitizeHList fuel ((sanitizeH fuel s v).1) rest).1 := by
      simp [sanitizeHList]
    rw [hres]
    exact ⟨Nat.le_trans ih1 jh1, fun a ha => by
      rw [jh2 a (Nat.lt_of_lt_of_le ha ih1), ih2 a ha]⟩

/-- Fields version of `sanitizeH_frame`. -/
theorem sanitizeHFields_frame : ∀ (fuel : Nat) (s : Store) (fs : List (String × HVal)),
    s.length ≤ ((sanitizeHFields fuel s fs).1).length ∧
    ∀ a : Nat, a < s.length → ((sanitizeHFields fuel s fs).1)[a]? = s[a]?
  | fuel, s, [] => by
    refine ⟨?_, fun a ha => ?_⟩ <;> simp [sanitizeHFields]
  | fuel, s, (k, v) :: rest => by
    by_cases hk : k ∈ SENSITIVE_KEYS
    · obtain ⟨ih1, ih2⟩ := sanitizeHFields_frame fuel s rest
      have hres : (sanitizeHFields fuel s ((k, v) :: rest)).1 =
          (sanitizeHFields fuel s rest).1 := by
        simp [sanitizeHFields, hk]
      rw [hres]
      exact ⟨ih1, ih2⟩
    · obtain ⟨ih1, ih2⟩ := sanitizeH_frame fuel s v
      obtain ⟨jh1, jh2⟩ := sanitizeHFields_frame fuel ((sanitizeH fuel s v).1) rest
      have hres : (sanitizeHFields fuel s ((k, v) :: rest)).1 =
          (sanitizeHFields fuel ((sanitizeH fuel s v).1) rest).1 := by
        simp [sanitizeHFields, hk]
      rw [hres]
      exact ⟨Nat.le_trans ih1 jh1, fun a ha => by
        rw [jh2 a (Nat.lt_of_lt_of_le ha ih1), ih2 a ha]⟩

end

/-- C9: in the store-passing semantics the redactor does not mutate its
input — every heap cell reachable before the call (indeed every
pre-existing cell) is unchanged in the output store — and its result is a
fresh copy: sanitizing a reference to an existing cell (with fuel to spare)
returns a reference to a newly allocated cell, never an alias of the
input. -/
theorem sanitizeH_no_mutation :
    (∀ (fuel : Nat) (s : Store) (v : HVal) (a : Nat), a < s.length →
      ((sanitizeH fuel s v).1)[a]? = s[a]?) ∧
    (∀ (fuel : Nat) (s : Store) (adr : Nat) (c : HCell), s[adr]? = some c →
      0 < fuel →
      ∃ b : Nat, (sanitizeH fuel s (.ref adr)).2 = .ref b ∧ s.length ≤ b) := by
  constructor
  · intro fuel s v a ha
    exact (sanitizeH_frame fuel s v).2 a ha
  · intro fuel s adr c hc hf
    match fuel, hf with
    | fuel + 1, _ =>
      cases c with
      | arrC elems =>
        rw [sanitizeH_ref_arr fuel s adr elems hc]
        exact ⟨_, rfl, (sanitizeHList_frame fuel s elems).1⟩
      | objC fields =>
        rw [sanitizeH_ref_obj fuel s adr fields hc]
        exact ⟨_, rfl, (sanitizeHFields_frame fuel s fields).1⟩

/-- C9 witness: sanitizing a reference to a one-cell store holding
`(api_key : "secret")` leaves cell 0 unchanged and returns a reference to a
fresh cell at or beyond the old end of the store. -/
theorem sanitizeH_no_mutation_witness :
    ((sanitizeH 2 [HCell.objC [("api_key", HVal.prim (.str "secret"))]]
        (.ref 0)).1)[0]? =
      ([HCell.objC [("api_key", HVal.prim (.str "secret"))]] : Store)[0]? ∧
    ∃ b : Nat, (sanitizeH 2 [HCell.objC [("api_key", HVal.prim (.str "secret"))]]
        (.ref 0)).2 = .ref b ∧
      ([HCell.objC [("api_key", HVal.prim (.str "secret"))]] : Store).length ≤ b := by
  exact ⟨sanitizeH_no_mutation.1 2 _ (.ref 0) 0 (by decide),
    sanitizeH_no_mutation.2 2 _ 0 (.objC [("api_key", HVal.prim (.str "secret"))])
      rfl (by decide)⟩

/-- C7 witness: redacting the spec scenario
`(branch_key : "k", nested : (auth_token : "t", ok : "v"))` replaces the
nested `auth_token` value by the placeholder, keeps the non-sensitive
sibling `ok : "v"` of the redacted key structurally identical, and leaves a
payload without sensitive keys untouched. -/
theorem sanitizeLogObject_redacts_witness :
    getPath
      (sanitizeLogObject (.obj [("branch_key", .str "k"),
        ("nested", .obj [("auth_token", .str "t"), ("ok", .str "v")])]))
      ([.fieldStep "nested"] ++ [.fieldStep "auth_token"]) =
      some (.str REDACTED_PLACEHOLDER) ∧
    getPath
      (sanitizeLogObject (.obj [("branch_key", .str "k"),
        ("nested", .obj [("auth_token", .str "t"), ("ok", .str "v")])]))
      [.fieldStep "nested", .fieldStep "ok"] = some (.str "v") ∧
    sanitizeLogObject (.obj [("ok", .str "v")]) = .obj [("ok", .str "v")] := by
  exact ⟨sanitizeLogObject_redacts.1
      (.obj [("branch_key", .str "k"),
        ("nested", .obj [("auth_token", .str "t"), ("ok", .str "v")])])
      [.fieldStep "nested"] "auth_token" (.str "t") (by decide) (by decide) rfl,
    sanitizeLogObject_redacts.2.2.1
      (.obj [("branch_key", .str "k"),
        ("nested", .obj [("auth_token", .str "t"), ("ok", .str "v")])])
      [.fieldStep "nested", .fieldStep "ok"] (.str "v") (by decide) rfl (by decide),
    sanitizeLogObject_redacts.2.2.2 (.obj [("ok", .str "v")]) (by decide)⟩

end BranchMcp
